import Mathlib

/-!
Verification of the greenpoint_energy enrichment pipeline.

This file gives a shallow embedding of the pipeline's core components
(src/pdf_parser.py, src/uitility.py, src/duckduckgo_enricher.py,
src/llm_enricher.py) and proves the specified properties about them.

Modelling conventions:
* Python's dynamic values are the inductive `PyVal`; Python numbers
  (int and float alike) are embedded as exact rationals `Rat`.
* A Python dict record is an association list `Record` preserving
  insertion order, with `Rec.get` modelling `dict.get(k)` (default None),
  `Rec.set` modelling `d[k] = v` (replace in place or append).
* Fallible code returns `Option`: `Option.none` marks executions in which
  the Python code raises an exception that the modelled fragment does not
  itself convert into a value.
* Machine floats: the scoring code computes
  `round(100*filled/15)` and `int(0.4*w + 0.4*i + 0.2*c)` in IEEE double
  arithmetic.  On the reachable inputs (`w`, `i` multiples of 25 capped at
  100, `filled ≤ 15`, `c ≤ 100`) each intermediate double is exactly the
  real number it denotes or is within 2⁻⁴⁰ of it while the true value is
  at distance ≥ 1/6 from any rounding boundary, and the banker's-rounding
  tie case of Python's `round` never arises (200·filled + 15 is odd, all
  tie numerators are even); hence both computations coincide with exact
  rational rounding/floor, which is what the embedding uses.
-/

namespace GreenPoint

/-- Python-style dynamic values as they appear in pipeline records
(JSON-like: None, bool, numbers, strings, lists, dicts). -/
inductive PyVal where
  | none
  | bool (b : Bool)
  | num (q : Rat)
  | str (s : String)
  | list (l : List PyVal)
  | dict (d : List (String × PyVal))

/-- A pipeline record: a Python dict modelled as an insertion-ordered
association list. -/
abbrev Record : Type := List (String × PyVal)

namespace Rec

/-- Dict lookup: first entry with the given key. -/
def lookup : Record → String → Option PyVal
  | [], _ => Option.none
  | (k', v) :: rest, k => if k' = k then some v else lookup rest k

/-- Models Python `record.get(k)` (absent key yields None). -/
def get (r : Record) (k : String) : PyVal := (lookup r k).getD PyVal.none

/-- Models Python `record.get(k, d)`. -/
def getD (r : Record) (k : String) (d : PyVal) : PyVal := (lookup r k).getD d

/-- Whether the key itself is present (`k in record`), regardless of value. -/
def hasKey (r : Record) (k : String) : Bool := (lookup r k).isSome

/-- Models Python `record[k] = v`: replace in place, else append. -/
def set : Record → String → PyVal → Record
  | [], k, v => [(k, v)]
  | (k', v') :: rest, k, v => if k' = k then (k, v) :: rest else (k', v') :: set rest k v

/-- Models Python `record.update(kvs)`. -/
def update (r : Record) (kvs : List (String × PyVal)) : Record :=
  kvs.foldl (fun acc kv => set acc kv.1 kv.2) r

end Rec

/-- Python truthiness (`bool(v)` is False). -/
def pyFalsy : PyVal → Bool
  | .none => true
  | .bool b => !b
  | .num q => q = 0
  | .str s => s = ""
  | .list l => l.isEmpty
  | .dict d => d.isEmpty

/-- Characters stripped by Python `str.strip()` (ASCII whitespace). -/
def isPySpace (c : Char) : Bool :=
  c = ' ' || c = '\t' || c = '\n' || c = '\r' || c = '\x0b' || c = '\x0c'

/-- Models Python `str.strip()` on a character list. -/
def stripChars (l : List Char) : List Char :=
  ((l.dropWhile isPySpace).reverse.dropWhile isPySpace).reverse

/-- Models Python `str.strip()`. -/
def pyStrip (s : String) : String := String.mk (stripChars s.toList)

/-- `leadsWith n h`: the list `h` starts with `n`. -/
def leadsWith : List Char → List Char → Bool
  | [], _ => true
  | _ :: _, [] => false
  | a :: as, b :: bs => a = b && leadsWith as bs

/-- `containsSeq n h`: `n` occurs contiguously inside `h`. -/
def containsSeq : List Char → List Char → Bool
  | n, [] => n.isEmpty
  | n, c :: rest => leadsWith n (c :: rest) || containsSeq n rest

/-- Models Python substring containment `needle in hay`. -/
def pyIn (needle hay : String) : Bool := containsSeq needle.toList hay.toList

/-- Models Python `str.lower()` (ASCII; all modelled text is ASCII). -/
def lowerStr (s : String) : String := String.mk (s.toList.map Char.toLower)

/-- Models Python `str.split(",")`. -/
def splitOnComma : List Char → List (List Char)
  | [] => [[]]
  | c :: cs =>
    if c = ',' then [] :: splitOnComma cs
    else
      match splitOnComma cs with
      | [] => [[c]]
      | p :: ps => (c :: p) :: ps

/-! ### Decimal parsing (src/pdf_parser.py `_parse_number`) -/

/-- Value of a digit string (most significant first). -/
def digitsToNat (l : List Char) : Nat := l.foldl (fun a c => 10 * a + (c.toNat - 48)) 0

/-- Non-empty all-digit check. -/
def isDigits (l : List Char) : Bool := !l.isEmpty && l.all Char.isDigit

/-- Consume an optional leading sign; returns (isNegative, rest). -/
def takeSign : List Char → Bool × List Char
  | '-' :: cs => (true, cs)
  | '+' :: cs => (false, cs)
  | cs => (false, cs)

/-- Split at the first character satisfying `p`; the second component is
`some rest` when such a character was found (and consumed). -/
def breakAt (p : Char → Bool) : List Char → List Char × Option (List Char)
  | [] => ([], Option.none)
  | c :: cs =>
    if p c then ([], some cs)
    else
      let r := breakAt p cs
      (c :: r.1, r.2)

/-- Models Python `float(s)` on finite decimal literals, returning the exact
rational value: optional sign, digits with optional decimal point, optional
exponent.  (`inf`/`nan` and PEP-515 underscored digits are not modelled; the
caller strips whitespace before parsing, matching the source.) -/
def parseDecimal (s : String) : Option Rat :=
  let l := s.toList
  let sgn := takeSign l
  let m := breakAt (fun c => c = 'e' || c = 'E') sgn.2
  let ipf := breakAt (fun c => c = '.') m.1
  let ip := ipf.1
  let fp := (ipf.2).getD []
  let okMant := ip.all Char.isDigit && fp.all Char.isDigit && (!ip.isEmpty || !fp.isEmpty)
  if !okMant then Option.none
  else
    let mantNum : Nat := digitsToNat ip * 10 ^ fp.length + digitsToNat fp
    let mantDen : Nat := 10 ^ fp.length
    match m.2 with
    | Option.none =>
      some (if sgn.1 then mkRat (-(mantNum : Int)) mantDen else mkRat mantNum mantDen)
    | some ex =>
      let esgn := takeSign ex
      if !isDigits esgn.2 then Option.none
      else
        let e := digitsToNat esgn.2
        let n : Int := if esgn.1 then (mantNum : Int) else (mantNum : Int) * 10 ^ e
        let den : Nat := if esgn.1 then mantDen * 10 ^ e else mantDen
        some (if sgn.1 then mkRat (-n) den else mkRat n den)

/-- The cleaned cell text used by `_parse_number`:
`str(value).replace(",", "").strip()`. -/
def cleanNum (s : String) : String := pyStrip (String.mk (s.toList.filter (fun c => !(c = ','))))

/-- Models `_parse_number` (src/pdf_parser.py lines 28-36): falsy values and
the tokens `-`, `—`, `""` map to None; otherwise commas are removed, the text
stripped, and parsed as a float, any parse failure yielding None.  A numeric
cell round-trips through `str`/`float` unchanged; non-string truthy
non-numeric cells fail the float call and yield None. -/
def parse_number (value : PyVal) : PyVal :=
  if pyFalsy value then PyVal.none
  else
    match value with
    | .str s =>
      if pyStrip s = "-" || pyStrip s = "—" || pyStrip s = "" then PyVal.none
      else
        match parseDecimal (cleanNum s) with
        | some q => PyVal.num q
        | Option.none => PyVal.none
    | .num q => PyVal.num q
    | _ => PyVal.none

/-! ### Firm-name cleaning and table normalization (src/pdf_parser.py) -/

/-- Drop trailing commas, modelling `str.rstrip(",")`. -/
def rstripCommas (l : List Char) : List Char :=
  (l.reverse.dropWhile (fun c => c = ',')).reverse

/-- Models `_clean_firm_name` (src/pdf_parser.py lines 39-44): non-strings
become `""`; dagger marks (U+2020) are removed, then the text is stripped and
trailing commas dropped. -/
def clean_firm_name (value : PyVal) : PyVal :=
  match value with
  | .str s => PyVal.str (String.mk (rstripCommas (stripChars (s.toList.filter (fun c => !(c = '†'))))))
  | _ => PyVal.str ""

/-- A pandas column label: the default integer labels or assigned names. -/
inductive ColLabel where
  | nat (n : Nat)
  | str (s : String)

/-- Models Python `str(label)`. -/
def ColLabel.toPyStr : ColLabel → String
  | .nat n => toString n
  | .str s => s

/-- Models `isinstance(label, str)`. -/
def ColLabel.isStr : ColLabel → Bool
  | .nat _ => false
  | .str _ => true

/-- A pandas DataFrame: column labels plus rectangular rows of cells. -/
structure DF where
  cols : List ColLabel
  rows : List (List PyVal)

/-- Models Python `str(cell)` for the cell values that occur in tables
(header-detection joins only ever see string cells in the modelled inputs). -/
def pyStrOfVal : PyVal → String
  | .none => "None"
  | .bool b => if b then "True" else "False"
  | .num q => if q.den = 1 then toString q.num else toString q
  | .str s => s
  | .list _ => "[list]"
  | .dict _ => "[dict]"

/-- The clean column names assigned positionally (src/pdf_parser.py 96-112). -/
def CLEAN_COLS : List String :=
  ["enr_rank_2025", "enr_rank_2024", "firm", "total_revenue_m", "int_total_revenue_m",
   "new_contracts", "general_building_pct", "manufacturing_pct", "power_pct",
   "water_supply_pct", "sewer_waste_pct", "industrial_oilgas_pct", "transportation_pct",
   "hazardous_waste_pct", "telecom_pct"]

/-- The columns the source tries to numeric-parse (src/pdf_parser.py 118-133).
Note the names `total_revenue`, `int_total_revenue`, `new_contracts_m` do not
match the assigned clean names. -/
def NUM_COLS : List String :=
  ["enr_rank_2025", "enr_rank_2024", "total_revenue", "int_total_revenue",
   "new_contracts_m", "general_building_pct", "manufacturing_pct", "power_pct",
   "water_supply_pct", "sewer_waste_pct", "industrial_oilgas_pct", "transportation_pct",
   "hazardous_waste_pct", "telecom_pct"]

/-- A row "looks like a header": its space-joined lowercased text contains
both "firm" and "revenue". -/
def rowIsHeader (row : List PyVal) : Bool :=
  let joined := lowerStr (String.intercalate " " (row.map pyStrOfVal))
  pyIn "firm" joined && pyIn "revenue" joined

/-- Index of the header row among the first `min 3 len` rows (lines 83-88). -/
def findHeaderRow (rows : List (List PyVal)) : Option Nat :=
  (rows.take 3).findIdx? rowIsHeader

/-- The header-identification guard of line 81:
`not isinstance(df.columns[0], str) or any(c in str(col).lower() ...)`.
The caller guarantees at least one column. -/
def headerCond (cols : List ColLabel) : Bool :=
  match cols with
  | [] => false
  | c0 :: _ =>
    !c0.isStr || cols.any (fun col =>
      match col with
      | .str s => pyIn "firm" (lowerStr s) || pyIn "revenue" (lowerStr s) || pyIn "rank" (lowerStr s)
      | _ => false)

/-- The rename guard of line 94 with Python's short-circuit evaluation;
`Option.none` models the IndexError raised by `df.columns[2]` when fewer than
three columns exist and the first disjunct is false. -/
def renameCond (cols : List ColLabel) : Option Bool :=
  if cols.length = 0 then some false
  else if pyIn "rank" (lowerStr (cols.headD (ColLabel.nat 0)).toPyStr) then some true
  else
    match cols[2]? with
    | Option.none => Option.none
    | some c2 =>
      if pyIn "firm" (lowerStr c2.toPyStr) then some true
      else some (!(pyIn "rank_2025" (lowerStr (cols.headD (ColLabel.nat 0)).toPyStr)))

/-- Index of a string-labelled column. -/
def colIdx (cols : List ColLabel) (name : String) : Option Nat :=
  cols.findIdx? (fun c =>
    match c with
    | .str s => s = name
    | _ => false)

/-- Apply `f` to cell `i` of every row (`df[col] = df[col].apply(f)`);
rows are rectangular in the modelled tables. -/
def mapColAt (rows : List (List PyVal)) (i : Nat) (f : PyVal → PyVal) : List (List PyVal) :=
  rows.map (fun row => row.set i (f (row.getD i PyVal.none)))

/-- Absolute difference of naturals (`abs(len(df.columns) - len(clean_cols))`). -/
def natAbsDiff (a b : Nat) : Nat := max a b - min a b

/-- Models `normalize_enr_table` (src/pdf_parser.py lines 66-143).
`Option.none` marks runs where pandas raises: no columns at all
(`df.columns[0]`), `df.columns[2]` on a short frame, a length mismatch when
assigning `clean_cols[:n]`, or the KeyError of `df["firm"]` when no column is
named "firm". -/
def normalize_enr_table (df : DF) : Option DF :=
  match df.cols with
  | [] => Option.none
  | _ :: _ =>
    let df1 :=
      if headerCond df.cols then
        match findHeaderRow df.rows with
        | some i => DF.mk df.cols (df.rows.drop (i + 1))
        | Option.none => df
      else df
    match renameCond df1.cols with
    | Option.none => Option.none
    | some doRename =>
      let df2o : Option DF :=
        if doRename then
          if natAbsDiff df1.cols.length CLEAN_COLS.length ≤ 5 then
            if df1.cols.length ≤ CLEAN_COLS.length then
              some (DF.mk ((CLEAN_COLS.take df1.cols.length).map ColLabel.str) df1.rows)
            else Option.none
          else some df1
        else some df1
      match df2o with
      | Option.none => Option.none
      | some df2 =>
        let df3 := NUM_COLS.foldl (fun d col =>
          match colIdx d.cols col with
          | some i => DF.mk d.cols (mapColAt d.rows i parse_number)
          | Option.none => d) df2
        match colIdx df3.cols "firm" with
        | Option.none => Option.none
        | some i =>
          let rows4 := mapColAt df3.rows i clean_firm_name
          let rows5 := rows4.filter (fun row =>
            match row.getD i PyVal.none with
            | .str s => !(s = "")
            | _ => true)
          some (DF.mk df3.cols rows5)

/-- Models `enr_table_to_dicts` (`df.to_dict(orient="records")`); the
modelled frames carry string labels at this point. -/
def enr_table_to_dicts (df : DF) : List Record :=
  df.rows.map (fun row => (df.cols.zip row).map (fun p => (p.1.toPyStr, p.2)))

/-! ### Location derivation (src/uitility.py `add_location_field`) -/

/-- Characters after the first comma (`firm.split(",", 1)[1]`). -/
def afterComma : List Char → List Char
  | [] => []
  | c :: cs => if c = ',' then cs else afterComma cs

/-- String form of `afterComma`. -/
def afterCommaStr (s : String) : String := String.mk (afterComma s.toList)

/-- Models the loop body of `add_location_field` (src/uitility.py 13-26) for
one record: a string firm containing a comma yields the stripped text after
the first comma as `location`; otherwise `location` is None. -/
def add_location_one (record : Record) : Record :=
  match Rec.get record "firm" with
  | PyVal.str s =>
    if pyIn "," s then Rec.set record "location" (PyVal.str (pyStrip (afterCommaStr s)))
    else Rec.set record "location" PyVal.none
  | _ => Rec.set record "location" PyVal.none

/-- Models `add_location_field` over a record list. -/
def add_location_field (records : List Record) : List Record :=
  records.map add_location_one

/-! ### Search enricher (src/duckduckgo_enricher.py) -/

/-- Python regex word characters (ASCII fragment of `\w`; all modelled
inputs are ASCII). -/
def isWordChar (c : Char) : Bool := c.isAlphanum || c = '_'

/-- Case-insensitive match of a (lowercase) token at the head of the text;
returns the remaining text on success. -/
def matchLowerAt : List Char → List Char → Option (List Char)
  | [], rest => some rest
  | _ :: _, [] => Option.none
  | t :: ts, c :: cs => if c.toLower = t then matchLowerAt ts cs else Option.none

/-- Word boundary after a token whose last character is `lastIsWord`-classed,
followed by `rest`. -/
def boundaryAfter (lastIsWord : Bool) (rest : List Char) : Bool :=
  match rest with
  | [] => lastIsWord
  | c :: _ => lastIsWord != isWordChar c

/-- The alternatives of `,\s*(?:USA|United States|U\.S\.|US)\b`, paired with
whether their final character is a word character (for the `\b` check). -/
def usTokens : List (List Char × Bool) :=
  [("usa".toList, true), ("united states".toList, true), ("u.s.".toList, false), ("us".toList, true)]

/-- One of the US tokens matches here, with its trailing word boundary. -/
def usTokenHere (s : List Char) : Bool :=
  usTokens.any (fun t =>
    match matchLowerAt t.1 s with
    | some rest => boundaryAfter t.2 rest
    | Option.none => false)

/-- Search for `,\s*(?:USA|United States|U\.S\.|US)\b` (case-insensitive)
anywhere in the text. -/
def usSearch : List Char → Bool
  | [] => false
  | c :: rest => (c = ',' && usTokenHere (rest.dropWhile isPySpace)) || usSearch rest

/-- Search for `\bw\b` (case-insensitive) where `w` is a lowercase word made
of word characters; tracks the preceding character for the left boundary. -/
def wordSearchAux (w : List Char) : Option Char → List Char → Bool
  | _, [] => false
  | prev, c :: cs =>
    ((match prev with
      | Option.none => true
      | some p => !isWordChar p) &&
     (match matchLowerAt w (c :: cs) with
      | some rest =>
        (match rest with
         | [] => true
         | r :: _ => !isWordChar r)
      | Option.none => false)) || wordSearchAux w (some c) cs

/-- `re.search(r"\bw\b", s, re.I)` for a word token `w`. -/
def wordSearch (w : String) (s : List Char) : Bool := wordSearchAux w.toList Option.none s

/-- Case-insensitive plain substring search (`re.search` on a literal). -/
def pyInCI (needle hay : String) : Bool :=
  containsSeq needle.toList (hay.toList.map Char.toLower)

/-- The UK pattern `\bUK\b|United Kingdom|England|Scotland|Wales`. -/
def ukSearch (s : String) : Bool :=
  wordSearch "uk" s.toList || pyInCI "united kingdom" s || pyInCI "england" s ||
  pyInCI "scotland" s || pyInCI "wales" s

/-- The country rule set of `_guess_country_from_location`
(src/duckduckgo_enricher.py 64-82) on a non-empty string location. -/
def guessCountryStr (loc : String) : Option String :=
  if usSearch loc.toList then some "United States"
  else if wordSearch "canada" loc.toList then some "Canada"
  else if ukSearch loc then some "United Kingdom"
  else if wordSearch "india" loc.toList then some "India"
  else
    let parts := (splitOnComma loc.toList).map (fun l => pyStrip (String.mk l))
    if 2 ≤ parts.length then
      match parts.getLast? with
      | some candidate => if 2 < candidate.length then some candidate else Option.none
      | Option.none => Option.none
    else Option.none

/-- Models `_guess_country_from_location` on an arbitrary location value:
falsy locations yield None; the inner `Option.none` marks the TypeError
`re.search` raises on a truthy non-string. -/
def guess_country_from_location (location : PyVal) : Option (Option String) :=
  if pyFalsy location then some Option.none
  else
    match location with
    | .str loc => some (guessCountryStr loc)
    | _ => Option.none

/-- An Optional[str] as a record value. -/
def optStrToPy : Option String → PyVal
  | Option.none => PyVal.none
  | some s => PyVal.str s

/-- `if not html:` — a fetch result is falsy when absent or empty. -/
def htmlFalsy : Option String → Bool
  | Option.none => true
  | some s => s = ""

/-- Models `enrich_with_duckduckgo` (src/duckduckgo_enricher.py 85-145) with
the two `_fetch_html` results passed explicitly.  When both fetches are
falsy the function returns the heuristic-only result; the successful-fetch
scraping path is outside the claims and modelled as `Option.none`, as is the
TypeError of the country guess on a truthy non-string location. -/
def enrich_with_duckduckgo (firm_name : String) (location : PyVal)
    (fetch1 fetch2 : Option String) : Option Record :=
  let result : Record :=
    [("website", PyVal.none), ("headquarters", PyVal.none), ("country", PyVal.none),
     ("description", PyVal.none), ("operating_regions", PyVal.none),
     ("linkedin_url", PyVal.list [])]
  let html := if htmlFalsy fetch1 then fetch2 else fetch1
  if htmlFalsy html then
    match guess_country_from_location location with
    | some g => some (Rec.set result "country" (optStrToPy g))
    | Option.none => Option.none
  else Option.none

/-- Models one record step of `enrich_batch_with_duckduckgo`
(src/duckduckgo_enricher.py 148-175) in the configuration where every fetch
fails: `rec.update(enrich_with_duckduckgo(str(rec.get("firm","")).strip(),
rec.get("location")))`. -/
def ddg_step_all_fail (rec : Record) : Option Record :=
  let firm_name := pyStrip (pyStrOfVal (Rec.getD rec "firm" (PyVal.str "")))
  (enrich_with_duckduckgo firm_name (Rec.get rec "location") Option.none Option.none).map
    (Rec.update rec)

/-- The search-enricher batch driver when every fetch fails. -/
def ddg_batch_all_fail (records : List Record) : Option (List Record) :=
  records.mapM ddg_step_all_fail

/-! ### Scoring engine (src/llm_enricher.py `score_record`) -/

/-- The fixed 15-field enrichment target set (src/llm_enricher.py 13-29). -/
def TARGET_FIELDS : List String :=
  ["industry", "founded_year", "headquarters", "country", "website",
   "employee_count", "annual_turnover", "description", "operating_regions",
   "contact_name", "contact_designation", "contact_email", "contact_phone",
   "linkedin_url", "related_contacts"]

/-- `v in (None, "", [])` — the emptiness test of the completeness count. -/
def PyVal.isEmptyish : PyVal → Bool
  | .none => true
  | .str s => s = ""
  | .list l => l.isEmpty
  | _ => false

/-- Models `(x or "")` followed by string concatenation: falsy values give
`""`; a truthy string gives itself; a truthy non-string makes the `+` raise
TypeError, modelled as `Option.none`. -/
def pyOrStr (v : PyVal) : Option String :=
  if pyFalsy v then some ""
  else
    match v with
    | .str s => some s
    | _ => Option.none

/-- Number of target fields with a non-None, non-empty value. -/
def filledCount (enriched : Record) : Nat :=
  (TARGET_FIELDS.filter (fun k => !((Rec.get enriched k).isEmptyish))).length

/-- Models `round(100 * filled / max(1, total))`.  Exact: the value
`100·filled/15` is never a half-integer (200·filled+15 is odd), so Python's
banker's rounding, float rounding, and this half-up integer rounding agree. -/
def completeness (enriched : Record) : Nat :=
  (2 * (100 * filledCount enriched) + max 1 TARGET_FIELDS.length) /
    (2 * max 1 TARGET_FIELDS.length)

def WATER_KEYWORDS : List String := ["water", "wastewater", "water supply", "sewer"]

def INFRA_KEYWORDS : List String := ["infrastructure", "transportation", "power", "industrial"]

/-- `min(100, 25 * sum(1 for k in water_keywords if k in text_lower))`. -/
def waterScoreOf (blob : String) : Nat :=
  min 100 (25 * (WATER_KEYWORDS.filter (fun k => pyIn k blob)).length)

/-- `min(100, 25 * sum(1 for k in infra_keywords if k in text_lower))`. -/
def infraScoreOf (blob : String) : Nat :=
  min 100 (25 * (INFRA_KEYWORDS.filter (fun k => pyIn k blob)).length)

/-- Models `int(0.4 * w + 0.4 * i + 0.2 * c)`.  Exact on the reachable
inputs (see file header): the float computation always equals the rational
floor `⌊(2w + 2i + c)/5⌋`. -/
def leadScoreOf (w i c : Nat) : Nat := (2 * w + 2 * i + c) / 5

/-- The four score entries, in the source's insertion order. -/
def scoresFor (enriched : Record) (d ind : String) : List (String × PyVal) :=
  let text_lower := lowerStr (d ++ " " ++ ind)
  [("water_focus_score", PyVal.num (waterScoreOf text_lower : Nat)),
   ("infra_focus_score", PyVal.num (infraScoreOf text_lower : Nat)),
   ("lead_score",
    PyVal.num (leadScoreOf (waterScoreOf text_lower) (infraScoreOf text_lower)
      (completeness enriched) : Nat)),
   ("data_completeness_score", PyVal.num (completeness enriched : Nat))]

/-- Models `score_record` (src/llm_enricher.py 154-180).  `Option.none`
marks the TypeError of `(description or "") + " " + (industry or "")` when a
field holds a truthy non-string. -/
def score_record (enriched : Record) : Option (List (String × PyVal)) :=
  match pyOrStr (Rec.get enriched "description"), pyOrStr (Rec.get enriched "industry") with
  | some d, some ind => some (scoresFor enriched d ind)
  | _, _ => Option.none

/-! ### Batched language-model enrichment (src/llm_enricher.py) -/

/-- `{k: rec.get(k) for k in TARGET_FIELDS}`. -/
def targetsOf (rec : Record) : Record :=
  TARGET_FIELDS.map (fun k => (k, Rec.get rec k))

/-- Models `llm_obj.get(k, dflt)` on a dict payload. -/
def dictGetD (d : List (String × PyVal)) (k : String) (dflt : PyVal) : PyVal :=
  (Rec.lookup d k).getD dflt

/-- `scores = score_record({k: rec.get(k)}); rec.update(scores)` — the
degraded/except-path body that attaches scores only. -/
def scoreOnly (rec : Record) : Option Record :=
  (score_record (targetsOf rec)).map (Rec.update rec)

/-- The no-client branch of `enrich_batch_with_llm`
(src/llm_enricher.py 106-111): scores only, no target-field fill. -/
def enrich_batch_no_client (records : List Record) : Option (List Record) :=
  records.mapM scoreOnly

/-- The substitute list built on a shape mismatch (line 137):
`[{k: chunk[i].get(k) for k in TARGET_FIELDS} for i in range(len(chunk))]`. -/
def fallbackList (chunk : List Record) : List PyVal :=
  chunk.map (fun rec => PyVal.dict (targetsOf rec))

/-- The per-record merge of lines 138-143:
`for k in TARGET_FIELDS: rec[k] = llm_obj.get(k, rec.get(k))` followed by
scoring and `rec.update(scores)`.  `Option.none` marks runs where Python
leaves this clean path by an exception (a non-dict `llm_obj`, or a record
whose description/industry is a truthy non-string). -/
def applyOne (rec : Record) (obj : PyVal) : Option Record :=
  match obj with
  | .dict d =>
    let rec1 := TARGET_FIELDS.foldl
      (fun r k => Rec.set r k (dictGetD d k (Rec.get r k))) rec
    (score_record (targetsOf rec1)).map (Rec.update rec1)
  | _ => Option.none

/-- Models one chunk iteration of `enrich_batch_with_llm`
(src/llm_enricher.py 114-149): `response` is either the parsed JSON of a
successful model call (`Except.ok`) or an exception from the call itself
(`Except.error`).  A non-dict payload makes `parsed.get` raise inside the
`try`, landing in the scores-only except branch; a "records" value that is
not a list of exactly `len(chunk)` items is replaced by the fallback list. -/
def processChunk (chunk : List Record) (response : Except Unit PyVal) :
    Option (List Record) :=
  match response with
  | .error _ => chunk.mapM scoreOnly
  | .ok parsed =>
    match parsed with
    | .dict pd =>
      let enriched_list :=
        match dictGetD pd "records" PyVal.none with
        | .list l => if l.length = chunk.length then l else fallbackList chunk
        | _ => fallbackList chunk
      (chunk.zip enriched_list).mapM (fun p => applyOne p.1 p.2)
    | _ => chunk.mapM scoreOnly

/-! ### The degraded end-to-end pipeline (src/main.py 45-63) with every
fetch failing and no model client configured. -/

def pipeline_degraded (df : DF) : Option (List Record) :=
  match normalize_enr_table df with
  | Option.none => Option.none
  | some ndf =>
    let records := enr_table_to_dicts ndf
    let records := add_location_field records
    match ddg_batch_all_fail records with
    | Option.none => Option.none
    | some records => enrich_batch_no_client records

/-- The four score keys, in insertion order. -/
def SCORE_KEYS : List String :=
  ["water_focus_score", "infra_focus_score", "lead_score", "data_completeness_score"]

/-- The guarantee a chunk fallback gives each record: every target field
still reads its pre-call value, and the four scores computed from the
record's own target-field values are present. -/
def ChunkPost (pre post : Record) : Prop :=
  (∀ k ∈ TARGET_FIELDS, Rec.get post k = Rec.get pre k) ∧
  ∃ sc, score_record (targetsOf pre) = some sc ∧
    ∀ kv ∈ sc, Rec.lookup post kv.1 = some kv.2

/-! ### Concrete inputs used by individual claims -/

/-- The 2-row synthetic table of the end-to-end property: default integer
column labels, a header row containing the RANK/FIRM/REVENUE tokens, and the
two data rows. -/
def synthTable : DF :=
  DF.mk [ColLabel.nat 0, ColLabel.nat 1, ColLabel.nat 2, ColLabel.nat 3, ColLabel.nat 4]
    [[PyVal.str "RANK", PyVal.str "RANK", PyVal.str "FIRM", PyVal.str "REVENUE", PyVal.str "REVENUE"],
     [PyVal.str "1", PyVal.str "1", PyVal.str "Acme Co, Springfield", PyVal.str "100.0", PyVal.str "10.0"],
     [PyVal.str "2", PyVal.str "2", PyVal.str "Beta LLC", PyVal.str "50.5", PyVal.str "-"]]

/-- A 15-column table (wide enough for the positional rename) with one data
row, used to drive the full degraded pipeline. -/
def wideTable : DF :=
  DF.mk ((List.range 15).map ColLabel.nat)
    [[PyVal.str "RANK 2025", PyVal.str "RANK 2024", PyVal.str "FIRM", PyVal.str "REVENUE", PyVal.str "A",
      PyVal.str "B", PyVal.str "C", PyVal.str "D", PyVal.str "E", PyVal.str "F",
      PyVal.str "G", PyVal.str "H", PyVal.str "I", PyVal.str "J", PyVal.str "K"],
     [PyVal.str "1", PyVal.str "2", PyVal.str "Acme Co, Springfield", PyVal.str "100.0", PyVal.str "10.0",
      PyVal.str "5.0", PyVal.str "1", PyVal.str "2", PyVal.str "3", PyVal.str "4",
      PyVal.str "5", PyVal.str "6", PyVal.str "7", PyVal.str "8", PyVal.str "9"]]

/-- A minimal pre-call record for the 3-record chunk scenario. -/
def chunkRec : Record := [("firm", PyVal.str "A")]

/-- What the fallback makes of `chunkRec`: its own (absent → None) target
values written back, plus the four scores of an all-empty target set. -/
def chunkRecOut : Record :=
  ("firm", PyVal.str "A") :: (TARGET_FIELDS.map (fun k => (k, PyVal.none))) ++
    [("water_focus_score", PyVal.num 0), ("infra_focus_score", PyVal.num 0),
     ("lead_score", PyVal.num 0), ("data_completeness_score", PyVal.num 0)]

/-- A model response whose "records" array has length 2 (≠ 3). -/
def malformedResp : Except Unit PyVal :=
  Except.ok (PyVal.dict [("records", PyVal.list [PyVal.dict [], PyVal.dict []])])

/-- What the chunk path makes of an initially empty record: all fifteen
target keys (None) followed by the four zero scores. -/
def emptyChunkOut : Record :=
  (TARGET_FIELDS.map (fun k => (k, PyVal.none))) ++
    [("water_focus_score", PyVal.num 0), ("infra_focus_score", PyVal.num 0),
     ("lead_score", PyVal.num 0), ("data_completeness_score", PyVal.num 0)]

/-! ## Helper lemmas about records -/

theorem lookup_set_self (r : Record) (k : String) (v : PyVal) :
    Rec.lookup (Rec.set r k v) k = some v := by
  induction r with
  | nil => simp [Rec.set, Rec.lookup]
  | cons hd t ih =>
    obtain ⟨k', v'⟩ := hd
    by_cases hk : k' = k
    · simp [Rec.set, hk, Rec.lookup]
    · simp [Rec.set, hk, Rec.lookup, ih]

theorem lookup_set_ne (r : Record) (k k2 : String) (v : PyVal) (h : k2 ≠ k) :
    Rec.lookup (Rec.set r k v) k2 = Rec.lookup r k2 := by
  induction r with
  | nil => simp [Rec.set, Rec.lookup, Ne.symm h]
  | cons hd t ih =>
    obtain ⟨k', v'⟩ := hd
    by_cases hk : k' = k
    · subst hk
      simp [Rec.set, Rec.lookup, Ne.symm h]
    · simp [Rec.set, hk, Rec.lookup, ih]

theorem get_set_self (r : Record) (k : String) (v : PyVal) :
    Rec.get (Rec.set r k v) k = v := by
  simp [Rec.get, lookup_set_self]

theorem get_set_ne (r : Record) (k k2 : String) (v : PyVal) (h : k2 ≠ k) :
    Rec.get (Rec.set r k v) k2 = Rec.get r k2 := by
  simp [Rec.get, lookup_set_ne r k k2 v h]

theorem hasKey_set_self (r : Record) (k : String) (v : PyVal) :
    Rec.hasKey (Rec.set r k v) k = true := by
  simp [Rec.hasKey, lookup_set_self]

theorem hasKey_set_of (r : Record) (k k2 : String) (v : PyVal)
    (h : Rec.hasKey r k2 = true) : Rec.hasKey (Rec.set r k v) k2 = true := by
  by_cases hk : k2 = k
  · subst hk; exact hasKey_set_self r k2 v
  · simpa [Rec.hasKey, lookup_set_ne r k k2 v hk] using h

theorem lookup_update_not_mem (kvs : List (String × PyVal)) :
    ∀ (r : Record) (k : String), (∀ kv ∈ kvs, kv.1 ≠ k) →
      Rec.lookup (Rec.update r kvs) k = Rec.lookup r k := by
  induction kvs with
  | nil => intro r k _; rfl
  | cons kv rest ih =>
    intro r k h
    have hkv : kv.1 ≠ k := h kv (List.mem_cons_self kv rest)
    have hrest : ∀ kv2 ∈ rest, kv2.1 ≠ k := fun kv2 hm => h kv2 (List.mem_cons_of_mem kv hm)
    calc Rec.lookup (Rec.update (Rec.set r kv.1 kv.2) rest) k
        = Rec.lookup (Rec.set r kv.1 kv.2) k := ih (Rec.set r kv.1 kv.2) k hrest
      _ = Rec.lookup r k := lookup_set_ne r kv.1 k kv.2 (Ne.symm hkv)

theorem get_update_not_mem (kvs : List (String × PyVal)) (r : Record) (k : String)
    (h : ∀ kv ∈ kvs, kv.1 ≠ k) : Rec.get (Rec.update r kvs) k = Rec.get r k := by
  simp [Rec.get, lookup_update_not_mem kvs r k h]

theorem lookup_update_self (kvs : List (String × PyVal)) :
    ∀ (r : Record), (kvs.map Prod.fst).Nodup →
      ∀ kv ∈ kvs, Rec.lookup (Rec.update r kvs) kv.1 = some kv.2 := by
  induction kvs with
  | nil => intro r _ kv hkv; cases hkv
  | cons kv0 rest ih =>
    intro r hnd kv hkv
    have hnd' : (rest.map Prod.fst).Nodup := (List.nodup_cons.mp hnd).2
    have hk0 : kv0.1 ∉ rest.map Prod.fst := (List.nodup_cons.mp hnd).1
    rcases List.mem_cons.mp hkv with h0 | hrest
    · subst h0
      have : ∀ kv2 ∈ rest, kv2.1 ≠ kv.1 := by
        intro kv2 hm heq
        exact hk0 (heq ▸ List.mem_map_of_mem Prod.fst hm)
      calc Rec.lookup (Rec.update (Rec.set r kv.1 kv.2) rest) kv.1
          = Rec.lookup (Rec.set r kv.1 kv.2) kv.1 :=
            lookup_update_not_mem rest (Rec.set r kv.1 kv.2) kv.1 this
        _ = some kv.2 := lookup_set_self r kv.1 kv.2
    · exact ih (Rec.set r kv0.1 kv0.2) hnd' kv hrest

theorem hasKey_update_of (kvs : List (String × PyVal)) :
    ∀ (r : Record) (k : String), Rec.hasKey r k = true →
      Rec.hasKey (Rec.update r kvs) k = true := by
  induction kvs with
  | nil => intro r k h; exact h
  | cons kv rest ih =>
    intro r k h
    exact ih (Rec.set r kv.1 kv.2) k (hasKey_set_of r kv.1 k kv.2 h)

theorem lookup_map_self (f : String → PyVal) :
    ∀ (ks : List String) (k : String), k ∈ ks →
      Rec.lookup (ks.map (fun k2 => (k2, f k2))) k = some (f k) := by
  intro ks
  induction ks with
  | nil => intro k hk; cases hk
  | cons k0 rest ih =>
    intro k hk
    by_cases h0 : k0 = k
    · subst h0; simp [Rec.lookup]
    · rcases List.mem_cons.mp hk with h | h
      · exact absurd h.symm h0
      · simp [Rec.lookup, h0, ih k h]

theorem lookup_targetsOf (rec : Record) (k : String) (hk : k ∈ TARGET_FIELDS) :
    Rec.lookup (targetsOf rec) k = some (Rec.get rec k) :=
  lookup_map_self (fun k2 => Rec.get rec k2) TARGET_FIELDS k hk

/-- The merge fold of `applyOne`, fed values that equal the record's own
(as the fallback dict does), changes no `Rec.get` observation. -/
theorem fold_set_get (d : List (String × PyVal)) (orig : Record) :
    ∀ (ks : List String) (r : Record),
      (∀ k ∈ ks, Rec.lookup d k = some (Rec.get orig k)) →
      (∀ k, Rec.get r k = Rec.get orig k) →
      ∀ k, Rec.get (ks.foldl (fun acc k2 => Rec.set acc k2 (dictGetD d k2 (Rec.get acc k2))) r) k
        = Rec.get orig k := by
  intro ks
  induction ks with
  | nil => intro r _ hr k; exact hr k
  | cons k0 rest ih =>
    intro r hd hr k
    have hd0 : Rec.lookup d k0 = some (Rec.get orig k0) := hd k0 (List.mem_cons_self k0 rest)
    have hval : dictGetD d k0 (Rec.get r k0) = Rec.get orig k0 := by
      simp [dictGetD, hd0]
    have hr' : ∀ k2, Rec.get (Rec.set r k0 (dictGetD d k0 (Rec.get r k0))) k2 = Rec.get orig k2 := by
      intro k2
      by_cases hk2 : k2 = k0
      · subst hk2; rw [get_set_self, hval]
      · rw [get_set_ne r k0 k2 _ hk2]; exact hr k2
    exact ih (Rec.set r k0 (dictGetD d k0 (Rec.get r k0)))
      (fun k2 hm => hd k2 (List.mem_cons_of_mem k0 hm)) hr' k

/-- A key present before a `foldl` of `Rec.set` steps stays present. -/
theorem fold_set_hasKey_of (g : Record → String → PyVal) :
    ∀ (ks : List String) (r : Record) (k : String), Rec.hasKey r k = true →
      Rec.hasKey (ks.foldl (fun acc k2 => Rec.set acc k2 (g acc k2)) r) k = true := by
  intro ks
  induction ks with
  | nil => intro r k hk; exact hk
  | cons k0 rest ih =>
    intro r k hk
    exact ih (Rec.set r k0 (g r k0)) k (hasKey_set_of r k0 k (g r k0) hk)

/-- Any `foldl` of `Rec.set` steps leaves every folded-over key present. -/
theorem fold_set_hasKey (g : Record → String → PyVal) :
    ∀ (ks : List String) (r : Record) (k : String), k ∈ ks →
      Rec.hasKey (ks.foldl (fun acc k2 => Rec.set acc k2 (g acc k2)) r) k = true := by
  intro ks
  induction ks with
  | nil => intro r k hk; cases hk
  | cons k0 rest ih =>
    intro r k hk
    by_cases hrest : k ∈ rest
    · exact ih (Rec.set r k0 (g r k0)) k hrest
    · have hk0 : k = k0 := by
        rcases List.mem_cons.mp hk with h | h
        · exact h
        · exact absurd h hrest
      subst hk0
      exact fold_set_hasKey_of g rest (Rec.set r k (g r k)) k (hasKey_set_self r k (g r k))

/-! ## Helper lemmas about substring search -/

theorem leadsWith_iff (n : List Char) :
    ∀ h : List Char, leadsWith n h = true ↔ ∃ t, h = n ++ t := by
  induction n with
  | nil => intro h; simp [leadsWith]
  | cons a as ih =>
    intro h
    cases h with
    | nil => simp [leadsWith]
    | cons b bs =>
      simp only [leadsWith, Bool.and_eq_true, decide_eq_true_eq, ih bs, List.cons_append,
        List.cons.injEq]
      constructor
      · rintro ⟨rfl, t, rfl⟩; exact ⟨t, rfl, rfl⟩
      · rintro ⟨t, rfl, rfl⟩; exact ⟨rfl, t, rfl⟩

theorem containsSeq_iff (n : List Char) :
    ∀ h : List Char, containsSeq n h = true ↔ ∃ p t, h = p ++ n ++ t := by
  intro h
  induction h with
  | nil =>
    simp only [containsSeq, List.isEmpty_iff]
    constructor
    · rintro rfl; exact ⟨[], [], rfl⟩
    · rintro ⟨p, t, he⟩
      rcases List.append_eq_nil.mp (List.append_eq_nil.mp he.symm).1 with ⟨_, h2⟩
      exact h2
  | cons c cs ih =>
    simp only [containsSeq, Bool.or_eq_true, leadsWith_iff, ih]
    constructor
    · rintro (⟨t, ht⟩ | ⟨p, t, ht⟩)
      · exact ⟨[], t, by simpa using ht⟩
      · exact ⟨c :: p, t, by simp [ht]⟩
    · rintro ⟨p, t, he⟩
      cases p with
      | nil => exact Or.inl ⟨t, by simpa using he⟩
      | cons p0 ps =>
        right
        refine ⟨ps, t, ?_⟩
        have := he
        simp only [List.cons_append, List.cons.injEq] at this
        exact this.2

/-- `"water"` occurs in any text containing `"wastewater"`. -/
theorem water_of_wastewater (h : List Char) (hw : containsSeq "wastewater".toList h = true) :
    containsSeq "water".toList h = true := by
  rcases (containsSeq_iff _ h).mp hw with ⟨p, t, rfl⟩
  refine (containsSeq_iff _ _).mpr ⟨p ++ "waste".toList, t, ?_⟩
  simp

/-! ## Helper lemmas about `Option`-valued `mapM` -/

theorem mapM_some_forall₂ {α β : Type} (f : α → Option β) (P : α → β → Prop) :
    ∀ l : List α, (∀ a ∈ l, ∃ b, f a = some b ∧ P a b) →
      ∃ out, l.mapM f = some out ∧ List.Forall₂ P l out := by
  intro l
  induction l with
  | nil => intro _; exact ⟨[], rfl, List.Forall₂.nil⟩
  | cons a rest ih =>
    intro h
    obtain ⟨b, hb, hPb⟩ := h a (List.mem_cons_self a rest)
    obtain ⟨out, hout, hP⟩ := ih (fun a2 hm => h a2 (List.mem_cons_of_mem a hm))
    refine ⟨b :: out, ?_, List.Forall₂.cons hPb hP⟩
    rw [List.mapM_cons, hb, hout]
    rfl

theorem forall₂_of_mapM_some {α β : Type} (f : α → Option β) :
    ∀ (l : List α) (out : List β), l.mapM f = some out →
      List.Forall₂ (fun a b => f a = some b) l out := by
  intro l
  induction l with
  | nil =>
    intro out h
    simp only [List.mapM_nil, pure, Option.some.injEq] at h
    subst h
    exact List.Forall₂.nil
  | cons a rest ih =>
    intro out h
    rw [List.mapM_cons] at h
    cases hfa : f a with
    | none => rw [hfa] at h; cases h
    | some b =>
      rw [hfa] at h
      cases hrest : rest.mapM f with
      | none => rw [hrest] at h; cases h
      | some bs =>
        rw [hrest] at h
        simp only [Option.bind_eq_bind, Option.some_bind, pure, Option.some.injEq] at h
        subst h
        exact List.Forall₂.cons hfa (ih bs hrest)

/-! ## Arithmetic lemmas for the score formulas -/

/-! ## Helper lemmas about the scoring engine -/

theorem score_record_inv (e : Record) (sc : List (String × PyVal))
    (h : score_record e = some sc) :
    ∃ d ind, pyOrStr (Rec.get e "description") = some d ∧
      pyOrStr (Rec.get e "industry") = some ind ∧ sc = scoresFor e d ind := by
  unfold score_record at h
  cases hd : pyOrStr (Rec.get e "description") with
  | none => rw [hd] at h; cases h
  | some d =>
    cases hi : pyOrStr (Rec.get e "industry") with
    | none => rw [hd, hi] at h; cases h
    | some ind =>
      rw [hd, hi] at h
      exact ⟨d, ind, rfl, rfl, (Option.some.injEq _ _ ▸ h).symm⟩

theorem scoresFor_keys (e : Record) (d ind : String) :
    (scoresFor e d ind).map Prod.fst = SCORE_KEYS := rfl

theorem target_not_score : ∀ k ∈ TARGET_FIELDS, k ∉ SCORE_KEYS := by decide

theorem score_keys_nodup : SCORE_KEYS.Nodup := by decide

/-- The scoring engine reads a record only through its target-field values
(description and industry are target fields). -/
theorem score_record_congr (r r2 : Record)
    (h : ∀ k ∈ TARGET_FIELDS, Rec.get r k = Rec.get r2 k) :
    score_record r = score_record r2 := by
  have hd : Rec.get r "description" = Rec.get r2 "description" := h _ (by decide)
  have hi : Rec.get r "industry" = Rec.get r2 "industry" := h _ (by decide)
  have hf : filledCount r = filledCount r2 := by
    unfold filledCount
    congr 1
    exact List.filter_congr (fun k hk => by rw [h k hk])
  have hc : completeness r = completeness r2 := by unfold completeness; rw [hf]
  have hs : ∀ d ind, scoresFor r d ind = scoresFor r2 d ind := by
    intro d ind; unfold scoresFor; rw [hc]
  unfold score_record
  rw [hd, hi]
  cases pyOrStr (Rec.get r2 "description") <;> cases pyOrStr (Rec.get r2 "industry") <;>
    simp [hs]

theorem filledCount_le (r : Record) : filledCount r ≤ 15 :=
  List.length_filter_le _ TARGET_FIELDS

theorem completeness_le_100 (r : Record) : completeness r ≤ 100 := by
  unfold completeness
  have hf : filledCount r ≤ 15 := filledCount_le r
  have : 2 * (100 * filledCount r) + max 1 TARGET_FIELDS.length ≤ 3015 := by
    have : TARGET_FIELDS.length = 15 := rfl
    omega
  calc (2 * (100 * filledCount r) + max 1 TARGET_FIELDS.length) / (2 * max 1 TARGET_FIELDS.length)
      ≤ 3015 / (2 * max 1 TARGET_FIELDS.length) := Nat.div_le_div_right this
    _ = 100 := by norm_num [TARGET_FIELDS]

theorem waterScoreOf_le (blob : String) : waterScoreOf blob ≤ 100 := min_le_left _ _

theorem infraScoreOf_le (blob : String) : infraScoreOf blob ≤ 100 := min_le_left _ _

theorem leadScoreOf_le (w i c : Nat) (hw : w ≤ 100) (hi : i ≤ 100) (hc : c ≤ 100) :
    leadScoreOf w i c ≤ 100 := by
  unfold leadScoreOf
  calc (2 * w + 2 * i + c) / 5 ≤ 500 / 5 := Nat.div_le_div_right (by omega)
    _ = 100 := by norm_num

/-! ## Helper lemmas about the chunked model-enrichment fallback -/

theorem scoreOnly_post (rec : Record)
    (h : (score_record (targetsOf rec)).isSome = true) :
    ∃ post, scoreOnly rec = some post ∧ ChunkPost rec post := by
  obtain ⟨sc, hsc⟩ := Option.isSome_iff_exists.mp h
  obtain ⟨d, ind, _, _, hshape⟩ := score_record_inv _ sc hsc
  refine ⟨Rec.update rec sc, by simp [scoreOnly, hsc], ?_, sc, hsc, ?_⟩
  · intro k hk
    refine get_update_not_mem sc rec k ?_
    intro kv hkv heq
    have hkmem : kv.1 ∈ sc.map Prod.fst := List.mem_map_of_mem Prod.fst hkv
    rw [hshape, scoresFor_keys] at hkmem
    exact target_not_score k hk (heq ▸ hkmem)
  · intro kv hkv
    refine lookup_update_self sc rec ?_ kv hkv
    rw [hshape, scoresFor_keys]
    exact score_keys_nodup

theorem applyOne_fallback (rec : Record)
    (h : (score_record (targetsOf rec)).isSome = true) :
    ∃ post, applyOne rec (PyVal.dict (targetsOf rec)) = some post ∧ ChunkPost rec post := by
  have hget : ∀ k, Rec.get
      (TARGET_FIELDS.foldl
        (fun r k => Rec.set r k (dictGetD (targetsOf rec) k (Rec.get r k))) rec) k
      = Rec.get rec k :=
    fold_set_get (targetsOf rec) rec TARGET_FIELDS rec
      (fun k hk => lookup_targetsOf rec k hk) (fun _ => rfl)
  set rec1 := TARGET_FIELDS.foldl
    (fun r k => Rec.set r k (dictGetD (targetsOf rec) k (Rec.get r k))) rec with hrec1
  have htargets : targetsOf rec1 = targetsOf rec := by
    unfold targetsOf
    exact List.map_congr_left (fun k _ => by rw [hget k])
  obtain ⟨sc, hsc⟩ := Option.isSome_iff_exists.mp h
  obtain ⟨d, ind, _, _, hshape⟩ := score_record_inv _ sc hsc
  have hsc1 : score_record (targetsOf rec1) = some sc := by rw [htargets]; exact hsc
  refine ⟨Rec.update rec1 sc, ?_, ?_, sc, hsc, ?_⟩
  · simp only [applyOne]
    rw [hsc1]
    rfl
  · intro k hk
    have hnot : ∀ kv ∈ sc, kv.1 ≠ k := by
      intro kv hkv heq
      have hkmem : kv.1 ∈ sc.map Prod.fst := List.mem_map_of_mem Prod.fst hkv
      rw [hshape, scoresFor_keys] at hkmem
      exact target_not_score k hk (heq ▸ hkmem)
    rw [get_update_not_mem sc rec1 k hnot, hget k]
  · intro kv hkv
    refine lookup_update_self sc rec1 ?_ kv hkv
    rw [hshape, scoresFor_keys]
    exact score_keys_nodup

theorem mapM_scoreOnly (chunk : List Record)
    (h : ∀ rec ∈ chunk, (score_record (targetsOf rec)).isSome = true) :
    ∃ out, chunk.mapM scoreOnly = some out ∧ List.Forall₂ ChunkPost chunk out :=
  mapM_some_forall₂ scoreOnly ChunkPost chunk (fun rec hm => scoreOnly_post rec (h rec hm))

theorem mapM_fallback (chunk : List Record)
    (h : ∀ rec ∈ chunk, (score_record (targetsOf rec)).isSome = true) :
    ∃ out, ((chunk.zip (fallbackList chunk)).mapM (fun p => applyOne p.1 p.2)) = some out ∧
      List.Forall₂ ChunkPost chunk out := by
  have hz : chunk.zip (fallbackList chunk)
      = chunk.map (fun rec => (rec, PyVal.dict (targetsOf rec))) := by
    unfold fallbackList
    calc chunk.zip (chunk.map (fun rec => PyVal.dict (targetsOf rec)))
        = (chunk.map id).zip (chunk.map (fun rec => PyVal.dict (targetsOf rec))) := by
          rw [List.map_id]
      _ = chunk.map (fun rec => (rec, PyVal.dict (targetsOf rec))) :=
          List.zip_map' id (fun rec => PyVal.dict (targetsOf rec)) chunk
  rw [hz]
  clear hz
  induction chunk with
  | nil => exact ⟨[], rfl, List.Forall₂.nil⟩
  | cons rec rest ih =>
    obtain ⟨post, hpost, hcp⟩ :=
      applyOne_fallback rec (h rec (List.mem_cons_self rec rest))
    obtain ⟨out, hout, hall⟩ := ih (fun r hm => h r (List.mem_cons_of_mem rec hm))
    refine ⟨post :: out, ?_, List.Forall₂.cons hcp hall⟩
    rw [List.map_cons, List.mapM_cons, hpost, hout]
    rfl

/-- Natural division is the floor of the rational quotient. -/
theorem nat_div_eq_floor (a b : Nat) (hb : 0 < b) :
    ((a / b : Nat) : Int) = ⌊(a : Rat) / (b : Rat)⌋ := by
  have hbq : (0 : Rat) < (b : Rat) := by exact_mod_cast hb
  symm
  rw [Int.floor_eq_iff]
  constructor
  · rw [le_div_iff hbq]
    exact_mod_cast Nat.div_mul_le_self a b
  · rw [div_lt_iff hbq]
    have h2 : a < (a / b + 1) * b := by
      have hmod := Nat.mod_lt a hb
      calc a = b * (a / b) + a % b := (Nat.div_add_mod a b).symm
        _ < b * (a / b) + b := by omega
        _ = (a / b + 1) * b := by ring
    exact_mod_cast h2

/-- Pointwise filter-length monotonicity. -/
theorem filter_length_mono {α : Type} (p q : α → Bool) (l : List α)
    (h : ∀ a ∈ l, p a = true → q a = true) :
    (l.filter p).length ≤ (l.filter q).length := by
  induction l with
  | nil => simp
  | cons a rest ih =>
    have ih2 := ih (fun a2 hm => h a2 (List.mem_cons_of_mem a hm))
    by_cases hpa : p a = true
    · have hqa := h a (List.mem_cons_self a rest) hpa
      simp only [List.filter_cons, hpa, hqa, if_true, List.length_cons]
      omega
    · by_cases hqa : q a = true
      · simp only [List.filter_cons, hpa, hqa, if_false, if_true, List.length_cons,
          Bool.false_eq_true]
        omega
      · simp only [List.filter_cons, hpa, hqa, Bool.false_eq_true, if_false]
        exact ih2

/-! ## Claim theorems -/

/-- C1: whenever the description/industry fields read as text (string or
falsy), the scores are exactly those of the lowercased
`description + " " + industry` blob: water/infra focus are
min(100, 25·matched keywords) over the fixed keyword sets; a blob containing
every water (resp. infra) keyword scores 100; a record with empty
description/industry and zero completeness has lead score 0 (shown for the
empty record and for explicitly empty strings); and the all-keywords
description yields water = infra = 100. -/
theorem claim_C1 :
    (∀ (r : Record) (d ind : String),
      pyOrStr (Rec.get r "description") = some d →
      pyOrStr (Rec.get r "industry") = some ind →
      score_record r = some
        [("water_focus_score", PyVal.num (waterScoreOf (lowerStr (d ++ " " ++ ind)) : Nat)),
         ("infra_focus_score", PyVal.num (infraScoreOf (lowerStr (d ++ " " ++ ind)) : Nat)),
         ("lead_score", PyVal.num (leadScoreOf (waterScoreOf (lowerStr (d ++ " " ++ ind)))
            (infraScoreOf (lowerStr (d ++ " " ++ ind))) (completeness r) : Nat)),
         ("data_completeness_score", PyVal.num (completeness r : Nat))]) ∧
    (∀ blob : String, (∀ k ∈ WATER_KEYWORDS, pyIn k blob = true) → waterScoreOf blob = 100) ∧
    (∀ blob : String, (∀ k ∈ INFRA_KEYWORDS, pyIn k blob = true) → infraScoreOf blob = 100) ∧
    score_record [] = some
      [("water_focus_score", PyVal.num 0), ("infra_focus_score", PyVal.num 0),
       ("lead_score", PyVal.num 0), ("data_completeness_score", PyVal.num 0)] ∧
    score_record [("description", PyVal.str ""), ("industry", PyVal.str "")] = some
      [("water_focus_score", PyVal.num 0), ("infra_focus_score", PyVal.num 0),
       ("lead_score", PyVal.num 0), ("data_completeness_score", PyVal.num 0)] ∧
    score_record [("description", PyVal.str
        "water wastewater water supply sewer infrastructure transportation power industrial")] =
      some [("water_focus_score", PyVal.num 100), ("infra_focus_score", PyVal.num 100),
            ("lead_score", PyVal.num 81), ("data_completeness_score", PyVal.num 7)] := by
  refine ⟨?_, ?_, ?_, rfl, rfl, rfl⟩
  · intro r d ind hd hi
    unfold score_record
    rw [hd, hi]
    rfl
  · intro blob h
    unfold waterScoreOf
    rw [List.filter_eq_self.mpr h]
    rfl
  · intro blob h
    unfold infraScoreOf
    rw [List.filter_eq_self.mpr h]
    rfl

theorem claim_C1_witness :
    score_record [("description", PyVal.str "Water utility"), ("industry", PyVal.str "Power")] =
      some [("water_focus_score", PyVal.num 25), ("infra_focus_score", PyVal.num 25),
            ("lead_score", PyVal.num 22), ("data_completeness_score", PyVal.num 13)] :=
  claim_C1.1 [("description", PyVal.str "Water utility"), ("industry", PyVal.str "Power")]
    "Water utility" "Power" rfl rfl

/-- C2: every score list the engine produces consists of the four keys with
natural values w, i, l, c where c is the rounding to nearest (half up, which
agrees with Python's banker's rounding since ties cannot occur) of
100·filled/15, l is the floor of 0.4·w + 0.4·i + 0.2·c, and all four values
lie in 0..100. -/
theorem claim_C2 (r : Record) (sc : List (String × PyVal)) (h : score_record r = some sc) :
    ∃ w i l c : Nat,
      sc = [("water_focus_score", PyVal.num w), ("infra_focus_score", PyVal.num i),
            ("lead_score", PyVal.num l), ("data_completeness_score", PyVal.num c)] ∧
      (c : Int) = round ((100 * (filledCount r : Rat)) / 15) ∧
      (l : Int) = ⌊(0.4 : Rat) * w + 0.4 * i + 0.2 * c⌋ ∧
      w ≤ 100 ∧ i ≤ 100 ∧ l ≤ 100 ∧ c ≤ 100 := by
  obtain ⟨d, ind, hd, hi, hsc⟩ := score_record_inv r sc h
  subst hsc
  have hlen : TARGET_FIELDS.length = 15 := rfl
  have hc : completeness r = (200 * filledCount r + 15) / 30 := by
    unfold completeness
    rw [hlen]
    have h1 : max 1 15 = 15 := rfl
    rw [h1]
    congr 1
    omega
  refine ⟨waterScoreOf (lowerStr (d ++ " " ++ ind)), infraScoreOf (lowerStr (d ++ " " ++ ind)),
    leadScoreOf (waterScoreOf (lowerStr (d ++ " " ++ ind)))
      (infraScoreOf (lowerStr (d ++ " " ++ ind))) (completeness r), completeness r,
    rfl, ?_, ?_, waterScoreOf_le _, infraScoreOf_le _,
    leadScoreOf_le _ _ _ (waterScoreOf_le _) (infraScoreOf_le _) (completeness_le_100 r),
    completeness_le_100 r⟩
  · rw [round_eq]
    have heq : (100 * (filledCount r : Rat)) / 15 + 1 / 2
        = ((200 * filledCount r + 15 : Nat) : Rat) / ((30 : Nat) : Rat) := by
      push_cast
      ring
    rw [heq, ← nat_div_eq_floor (200 * filledCount r + 15) 30 (by norm_num), hc]
  · have heq : (0.4 : Rat) * (waterScoreOf (lowerStr (d ++ " " ++ ind)) : Rat)
        + 0.4 * (infraScoreOf (lowerStr (d ++ " " ++ ind)) : Rat)
        + 0.2 * (completeness r : Rat)
        = ((2 * waterScoreOf (lowerStr (d ++ " " ++ ind))
            + 2 * infraScoreOf (lowerStr (d ++ " " ++ ind)) + completeness r : Nat) : Rat)
          / ((5 : Nat) : Rat) := by
      push_cast
      ring
    rw [heq, ← nat_div_eq_floor _ 5 (by norm_num)]
    rfl

theorem claim_C2_witness :
    ∃ w i l c : Nat,
      ([("water_focus_score", PyVal.num 0), ("infra_focus_score", PyVal.num 0),
        ("lead_score", PyVal.num 0), ("data_completeness_score", PyVal.num 0)]
          : List (String × PyVal))
        = [("water_focus_score", PyVal.num w), ("infra_focus_score", PyVal.num i),
           ("lead_score", PyVal.num l), ("data_completeness_score", PyVal.num c)] ∧
      (c : Int) = round ((100 * (filledCount [] : Rat)) / 15) ∧
      (l : Int) = ⌊(0.4 : Rat) * w + 0.4 * i + 0.2 * c⌋ ∧
      w ≤ 100 ∧ i ≤ 100 ∧ l ≤ 100 ∧ c ≤ 100 :=
  claim_C2 []
    [("water_focus_score", PyVal.num 0), ("infra_focus_score", PyVal.num 0),
     ("lead_score", PyVal.num 0), ("data_completeness_score", PyVal.num 0)] rfl

/-- C9: the scoring engine reads only the target-field values, so equal
target assignments give equal scores (determinism); attaching the produced
scores to the record and scoring again reproduces the same scores
(idempotence, since the score keys are disjoint from the target fields);
`data_completeness_score` does not decrease when an empty target field is
given a non-empty value; and it always lies in 0..100. -/
theorem claim_C9 :
    (∀ r r2 : Record, (∀ k ∈ TARGET_FIELDS, Rec.get r k = Rec.get r2 k) →
      score_record r = score_record r2) ∧
    (∀ (r : Record) (sc : List (String × PyVal)), score_record r = some sc →
      score_record (Rec.update r sc) = some sc) ∧
    (∀ (r : Record) (k : String) (v : PyVal), k ∈ TARGET_FIELDS →
      (Rec.get r k).isEmptyish = true → v.isEmptyish = false →
      completeness r ≤ completeness (Rec.set r k v)) ∧
    (∀ r : Record, completeness r ≤ 100) := by
  refine ⟨score_record_congr, ?_, ?_, completeness_le_100⟩
  · intro r sc h
    obtain ⟨d, ind, hd, hi, hshape⟩ := score_record_inv r sc h
    have hpres : ∀ k ∈ TARGET_FIELDS, Rec.get (Rec.update r sc) k = Rec.get r k := by
      intro k hk
      refine get_update_not_mem sc r k ?_
      intro kv hkv heq
      have hkmem : kv.1 ∈ sc.map Prod.fst := List.mem_map_of_mem Prod.fst hkv
      rw [hshape, scoresFor_keys] at hkmem
      exact target_not_score k hk (heq ▸ hkmem)
    rw [score_record_congr (Rec.update r sc) r hpres, h]
  · intro r k v hk he hv
    unfold completeness
    have hmono : filledCount r ≤ filledCount (Rec.set r k v) := by
      unfold filledCount
      refine filter_length_mono _ _ TARGET_FIELDS ?_
      intro a _ hpa
      by_cases hak : a = k
      · subst hak
        rw [get_set_self]
        simpa using hv
      · rw [get_set_ne r k a v hak]
        exact hpa
    exact Nat.div_le_div_right (by omega)

theorem claim_C9_witness :
    completeness [] ≤ completeness (Rec.set [] "industry" (PyVal.str "Water")) :=
  claim_C9.2.2.1 [] "industry" (PyVal.str "Water") (by decide) (by decide) (by decide)

/-- C10: keyword matching is substring containment: a blob containing
"wastewater" also matches "water", so with neither "water supply" nor
"sewer" present the water focus score is 50; and repeated occurrences of a
keyword count once per set member ("wastewater wastewater" also scores 50). -/
theorem claim_C10 :
    (∀ (r : Record) (d ind : String),
      pyOrStr (Rec.get r "description") = some d →
      pyOrStr (Rec.get r "industry") = some ind →
      pyIn "wastewater" (lowerStr (d ++ " " ++ ind)) = true →
      pyIn "water supply" (lowerStr (d ++ " " ++ ind)) = false →
      pyIn "sewer" (lowerStr (d ++ " " ++ ind)) = false →
      ∃ sc, score_record r = some sc ∧
        Rec.lookup sc "water_focus_score" = some (PyVal.num 50)) ∧
    score_record [("description", PyVal.str "wastewater wastewater")] =
      some [("water_focus_score", PyVal.num 50), ("infra_focus_score", PyVal.num 0),
            ("lead_score", PyVal.num 21), ("data_completeness_score", PyVal.num 7)] := by
  refine ⟨?_, rfl⟩
  intro r d ind hd hi hww hws hsw
  have hw : pyIn "water" (lowerStr (d ++ " " ++ ind)) = true := by
    unfold pyIn at hww ⊢
    exact water_of_wastewater _ hww
  refine ⟨scoresFor r d ind, ?_, ?_⟩
  · unfold score_record
    rw [hd, hi]
  · have hfil : WATER_KEYWORDS.filter (fun k => pyIn k (lowerStr (d ++ " " ++ ind)))
        = ["water", "wastewater"] := by
      unfold WATER_KEYWORDS
      simp [List.filter_cons, hw, hww, hws, hsw]
    have hwater : waterScoreOf (lowerStr (d ++ " " ++ ind)) = 50 := by
      unfold waterScoreOf
      rw [hfil]
      rfl
    unfold scoresFor
    simp only [Rec.lookup, if_pos rfl, hwater]
    norm_num

theorem claim_C10_witness :
    ∃ sc, score_record [("description", PyVal.str "wastewater plants")] = some sc ∧
      Rec.lookup sc "water_focus_score" = some (PyVal.num 50) :=
  claim_C10.1 [("description", PyVal.str "wastewater plants")] "wastewater plants" ""
    rfl rfl rfl rfl rfl

/-- C4: the numeric-cell parser returns the exact decimal value of a cell
whose comma-stripped text parses as a number; it returns None for the tokens
"-", "—", and the empty string; it returns None for any string whose cleaned
text is not parseable; and being a total function into `PyVal` it has no
failure mode.  The concrete clauses check a thousands-separated cell. -/
theorem claim_C4 :
    (∀ (s : String) (q : Rat), s ≠ "" → pyStrip s ≠ "-" → pyStrip s ≠ "—" → pyStrip s ≠ "" →
      parseDecimal (cleanNum s) = some q → parse_number (PyVal.str s) = PyVal.num q) ∧
    parse_number (PyVal.str "-") = PyVal.none ∧
    parse_number (PyVal.str "—") = PyVal.none ∧
    parse_number (PyVal.str "") = PyVal.none ∧
    (∀ s : String, parseDecimal (cleanNum s) = Option.none →
      parse_number (PyVal.str s) = PyVal.none) ∧
    parse_number (PyVal.str "20,241.4") = PyVal.num (mkRat 202414 10) ∧
    (mkRat 202414 10 : Rat) = 20241.4 := by
  refine ⟨?_, rfl, rfl, rfl, ?_, rfl, by norm_num [mkRat, Rat.normalize]⟩
  · intro s q hne h1 h2 h3 hp
    simp [parse_number, pyFalsy, hne, h1, h2, h3, hp]
  · intro s hp
    simp [parse_number, hp]

theorem claim_C4_witness :
    parse_number (PyVal.str "50.5") = PyVal.num (mkRat 505 10) :=
  claim_C4.1 "50.5" (mkRat 505 10) (by decide) (by decide) (by decide) (by decide) rfl

/-- C5: the location transform sets `location` to the stripped substring of
`firm` after the first comma when `firm` is a string containing a comma, and
to None otherwise (no comma, or a non-string firm); it changes no key other
than `location`; and the list version is the per-record map (mutation in
source order), making it deterministic with no failure mode. -/
theorem claim_C5 :
    (∀ (r : Record) (s : String), Rec.get r "firm" = PyVal.str s → pyIn "," s = true →
      Rec.get (add_location_one r) "location" = PyVal.str (pyStrip (afterCommaStr s))) ∧
    (∀ (r : Record) (s : String), Rec.get r "firm" = PyVal.str s → pyIn "," s = false →
      Rec.get (add_location_one r) "location" = PyVal.none) ∧
    (∀ r : Record, (∀ s, Rec.get r "firm" ≠ PyVal.str s) →
      Rec.get (add_location_one r) "location" = PyVal.none) ∧
    (∀ (r : Record) (k : String), k ≠ "location" →
      Rec.get (add_location_one r) k = Rec.get r k) ∧
    (∀ recs : List Record, add_location_field recs = recs.map add_location_one) := by
  refine ⟨?_, ?_, ?_, ?_, fun _ => rfl⟩
  · intro r s hf hc
    unfold add_location_one
    rw [hf]
    simp [hc, get_set_self]
  · intro r s hf hc
    unfold add_location_one
    rw [hf]
    simp [hc, get_set_self]
  · intro r hf
    unfold add_location_one
    split
    · rename_i s heq
      exact absurd heq (hf s)
    · exact get_set_self r "location" PyVal.none
  · intro r k hk
    unfold add_location_one
    split
    · split <;> exact get_set_ne r "location" k _ hk
    · exact get_set_ne r "location" k _ hk

theorem claim_C5_witness :
    Rec.get (add_location_one [("firm", PyVal.str "Acme Co, Springfield")]) "location" =
      PyVal.str "Springfield" :=
  claim_C5.1 [("firm", PyVal.str "Acme Co, Springfield")] "Acme Co, Springfield" rfl rfl

/-- C6: when both search fetch attempts return no page (absent or empty),
the enricher returns the heuristic-only record — website, headquarters,
description and operating_regions None, linkedin_url the empty list — with
country derived from the location alone by the fixed rule set; the concrete
clauses exercise every branch of that rule set: US/Canada/UK/India keyword
detection, the trailing comma-separated token when longer than 2 characters,
a short trailing token, a comma-free location, and a null location. -/
theorem claim_C6 :
    (∀ (firm_name : String) (location : PyVal) (f1 f2 : Option String) (g : Option String),
      htmlFalsy f1 = true → htmlFalsy f2 = true →
      guess_country_from_location location = some g →
      enrich_with_duckduckgo firm_name location f1 f2 = some
        [("website", PyVal.none), ("headquarters", PyVal.none), ("country", optStrToPy g),
         ("description", PyVal.none), ("operating_regions", PyVal.none),
         ("linkedin_url", PyVal.list [])]) ∧
    guess_country_from_location (PyVal.str "New York, USA") = some (some "United States") ∧
    guess_country_from_location (PyVal.str "Toronto, Canada") = some (some "Canada") ∧
    guess_country_from_location (PyVal.str "London, England") = some (some "United Kingdom") ∧
    guess_country_from_location (PyVal.str "Mumbai, India") = some (some "India") ∧
    guess_country_from_location (PyVal.str "Paris, France") = some (some "France") ∧
    guess_country_from_location (PyVal.str "Dallas, TX") = some Option.none ∧
    guess_country_from_location (PyVal.str "Springfield") = some Option.none ∧
    guess_country_from_location PyVal.none = some Option.none := by
  refine ⟨?_, rfl, rfl, rfl, rfl, rfl, rfl, rfl, rfl⟩
  intro firm_name location f1 f2 g h1 h2 hg
  simp only [enrich_with_duckduckgo, h1, if_true, h2, hg]
  rfl

theorem claim_C6_witness :
    enrich_with_duckduckgo "Acme" (PyVal.str "Toronto, Canada") Option.none (some "") = some
      [("website", PyVal.none), ("headquarters", PyVal.none), ("country", PyVal.str "Canada"),
       ("description", PyVal.none), ("operating_regions", PyVal.none),
       ("linkedin_url", PyVal.list [])] :=
  claim_C6.1 "Acme" (PyVal.str "Toronto, Canada") Option.none (some "") (some "Canada")
    rfl rfl rfl

/-- C3: for a chunk whose records can all be scored, whenever the model call
raises, the parsed payload is not a dict, the "records" value is not a list,
or the returned list length differs from the chunk length, chunk processing
succeeds with one output per input, each output retaining every target-field
value of its input and carrying the four scores computed from the input's own
field values; concretely, a 3-record chunk given a length-2 response array
yields all three records with fields retained and scores attached. -/
theorem claim_C3 :
    (∀ (chunk : List Record) (response : Except Unit PyVal),
      (∀ rec ∈ chunk, (score_record (targetsOf rec)).isSome = true) →
      (response = Except.error () ∨
       (∃ p, response = Except.ok p ∧ ∀ pd, p ≠ PyVal.dict pd) ∨
       (∃ pd, response = Except.ok (PyVal.dict pd) ∧
         ∀ l, dictGetD pd "records" PyVal.none ≠ PyVal.list l) ∨
       (∃ pd l, response = Except.ok (PyVal.dict pd) ∧
         dictGetD pd "records" PyVal.none = PyVal.list l ∧ l.length ≠ chunk.length)) →
      ∃ out, processChunk chunk response = some out ∧ List.Forall₂ ChunkPost chunk out) ∧
    processChunk [chunkRec, chunkRec, chunkRec] malformedResp =
      some [chunkRecOut, chunkRecOut, chunkRecOut] := by
  refine ⟨?_, rfl⟩
  intro chunk response hsc hcase
  rcases hcase with rfl | ⟨p, rfl, hND⟩ | ⟨pd, rfl, hNL⟩ | ⟨pd, l, rfl, hL, hlen⟩
  · exact mapM_scoreOnly chunk hsc
  · cases p
    case dict pd => exact absurd rfl (hND pd)
    all_goals exact mapM_scoreOnly chunk hsc
  · cases hv : dictGetD pd "records" PyVal.none
    case list l => exact absurd hv (hNL l)
    all_goals simp only [processChunk, hv]
    all_goals exact mapM_fallback chunk hsc
  · simp only [processChunk, hL]
    rw [if_neg hlen]
    exact mapM_fallback chunk hsc

theorem claim_C3_witness :
    ∃ out, processChunk [chunkRec] (Except.error ()) = some out ∧
      List.Forall₂ ChunkPost [chunkRec] out :=
  claim_C3.1 [chunkRec] (Except.error ())
    (by
      intro rec hm
      rcases List.mem_singleton.mp hm with rfl
      rfl)
    (Or.inl rfl)

/-- Membership inversion along a `Forall₂`. -/
theorem forall₂_mem_right {α β : Type} (R : α → β → Prop) :
    ∀ (l1 : List α) (l2 : List β), List.Forall₂ R l1 l2 → ∀ b ∈ l2, ∃ a ∈ l1, R a b := by
  intro l1 l2 hf
  induction hf with
  | nil => intro b hb; cases hb
  | cons hR hrest ih =>
    intro b hb
    rcases List.mem_cons.mp hb with rfl | hb2
    · exact ⟨_, List.mem_cons_self _ _, hR⟩
    · obtain ⟨a, ha, hab⟩ := ih b hb2
      exact ⟨a, List.mem_cons_of_mem _ ha, hab⟩

/-- A successful per-record merge leaves every target key and every score
key present in the record. -/
theorem applyOne_some_hasKey (rec : Record) (obj : PyVal) (post : Record)
    (h : applyOne rec obj = some post) :
    (∀ k ∈ TARGET_FIELDS, Rec.hasKey post k = true) ∧
    (∀ k ∈ SCORE_KEYS, Rec.hasKey post k = true) := by
  cases obj
  case dict d =>
    simp only [applyOne] at h
    obtain ⟨sc, hsc, hpost⟩ := Option.map_eq_some'.mp h
    obtain ⟨dd, ind, _, _, hshape⟩ := score_record_inv _ sc hsc
    subst hpost
    constructor
    · intro k hk
      apply hasKey_update_of
      exact fold_set_hasKey _ TARGET_FIELDS rec k hk
    · intro k hk
      have hkeys : sc.map Prod.fst = SCORE_KEYS := by rw [hshape, scoresFor_keys]
      rw [← hkeys] at hk
      obtain ⟨kv, hkv, hkeq⟩ := List.mem_map.mp hk
      have hlk := lookup_update_self sc
        (TARGET_FIELDS.foldl (fun r k => Rec.set r k (dictGetD d k (Rec.get r k))) rec)
        (by rw [hkeys]; exact score_keys_nodup) kv hkv
      subst hkeq
      simp [Rec.hasKey, hlk]
  all_goals cases h

/-- C7 (amended): after a chunk passes through the model-merge path — the
response parsed to a dict, whether its records list is applied or replaced by
the count-mismatch fallback — every target-field key and every score key
exists in every output record.  (In the no-client degraded path and in the
call-exception path only the scores are attached, which is what the
counterexample exhibits.) -/
theorem claim_C7_amended (chunk : List Record) (pd : List (String × PyVal))
    (out : List Record) (h : processChunk chunk (Except.ok (PyVal.dict pd)) = some out) :
    ∀ r ∈ out, (∀ k ∈ TARGET_FIELDS, Rec.hasKey r k = true) ∧
      (∀ k ∈ SCORE_KEYS, Rec.hasKey r k = true) := by
  intro r hr
  unfold processChunk at h
  have hf := forall₂_of_mapM_some _ _ _ h
  obtain ⟨p, _, happ⟩ := forall₂_mem_right _ _ _ hf r hr
  exact applyOne_some_hasKey p.1 p.2 r happ

theorem claim_C7_amended_witness :
    processChunk [([] : Record)] (Except.ok (PyVal.dict [])) = some [emptyChunkOut] ∧
    ∀ r ∈ [emptyChunkOut], (∀ k ∈ TARGET_FIELDS, Rec.hasKey r k = true) ∧
      (∀ k ∈ SCORE_KEYS, Rec.hasKey r k = true) :=
  ⟨rfl, claim_C7_amended [([] : Record)] [] [emptyChunkOut] rfl⟩

/-- C7 (counterexample): a record that completes the full pipeline in the
degraded configuration (every search fetch failing, no model client) does
not have the "industry" key: the no-client batch path attaches only scores,
so the nine model-only keys never enter the record. -/
theorem claim_C7_cex :
    (pipeline_degraded wideTable).map (fun rs => rs.map (fun r => Rec.hasKey r "industry"))
      = some [false] := rfl

/-- C8 (code bug): on the 5-column synthetic table the positional rename is
skipped (|5 − 15| > 5), the columns keep their integer labels, and
`df["firm"]` raises KeyError — normalization produces no records at all
(modelled as None).  Moreover, even on a table wide enough to be renamed,
the revenue columns are never numeric-parsed, because `num_cols` misnames
them (`total_revenue` vs `total_revenue_m`): the `total_revenue_m` cell
"100.0" survives as a string. -/
theorem claim_C8_bug :
    normalize_enr_table synthTable = Option.none ∧
    (normalize_enr_table wideTable).map
        (fun df => df.rows.map (fun row => row.getD 3 PyVal.none))
      = some [PyVal.str "100.0"] :=
  ⟨rfl, rfl⟩

end GreenPoint
